import Mathlib

/-!
Verification development for the LESS-MPI distributed regressor
(`src/lessmpi/lessmpi.py`).  Each Python fragment relevant to the
claims is shallowly embedded as an executable Lean definition; line
numbers in the comments refer to `src/lessmpi/lessmpi.py`.

Integer quantities (`n_subsets_`, `number_of_workers`, `rank`,
`n_replications`) are nonnegative Python ints and are modelled as `ℕ`
(cast to `ℤ` where the source arithmetic can go negative, e.g. the
`stop` bound of an empty chunk).  `int(a/b)` on nonnegative ints is
floor division, i.e. `ℕ` division.  Floating point payloads (targets,
distances, predictions) are modelled over `ℚ`; a float division is
modelled as an `Option`-valued division so that a division by zero is
an observable outcome rather than a silent default value.
-/

namespace LessMPI

/-- Python `range(a, b)` over integers: the list `[a, a+1, ..., b-1]`,
empty when `b ≤ a`. -/
def pyrange (a b : ℤ) : List ℤ :=
  (List.range (b - a).toNat).map (fun k : ℕ => a + (k : ℤ))

lemma pyrange_length (a b : ℤ) : (pyrange a b).length = (b - a).toNat := by
  simp [pyrange]

lemma mem_pyrange {a b x : ℤ} : x ∈ pyrange a b ↔ a ≤ x ∧ x < b := by
  constructor
  · intro hx
    simp only [pyrange, List.mem_map, List.mem_range] at hx
    obtain ⟨k, hk, rfl⟩ := hx
    omega
  · intro hx
    simp only [pyrange, List.mem_map, List.mem_range]
    exact ⟨(x - a).toNat, by omega, by omega⟩

lemma pyrange_append {a b c : ℤ} (hab : a ≤ b) (hbc : b ≤ c) :
    pyrange a b ++ pyrange b c = pyrange a c := by
  have hi : (c - a).toNat = (b - a).toNat + (c - b).toNat := by omega
  simp only [pyrange, hi, List.range_add, List.map_append, List.map_map]
  congr 1
  apply List.map_congr_left
  intro k _
  simp only [Function.comp_apply]
  push_cast
  omega

/-! ## Work distributor (`_fit_helper`, lines 241-247)

```python
if rank < ((self.n_subsets_) % number_of_workers):
    start = rank * (int((self.n_subsets_/number_of_workers))+1)
    stop = start + int((self.n_subsets_/number_of_workers))
else:
    start = (rank * int((self.n_subsets_/number_of_workers))) + (self.n_subsets_ % number_of_workers)
    stop = start + int((self.n_subsets_/number_of_workers)) - 1
my_chunk_len = stop-start+1
```
`n` is `n_subsets_`, `P` is `number_of_workers`, `r` is `rank`; the
same formulas appear verbatim in `_fit_helperc` (lines 299-305) with
`n = n_subsets_[i]`.  The job loop is `for job_index in range(start, stop+1)`. -/

def chunkStart (n P r : ℕ) : ℤ :=
  if r < n % P then (r : ℤ) * (((n / P : ℕ) : ℤ) + 1)
  else (r : ℤ) * ((n / P : ℕ) : ℤ) + ((n % P : ℕ) : ℤ)

def chunkStop (n P r : ℕ) : ℤ :=
  if r < n % P then chunkStart n P r + ((n / P : ℕ) : ℤ)
  else chunkStart n P r + ((n / P : ℕ) : ℤ) - 1

def myChunkLen (n P r : ℕ) : ℤ := chunkStop n P r - chunkStart n P r + 1

/-- The list of job indices handled by rank `r`:
`range(start, stop+1)` (line 258). -/
def chunkJobs (n P r : ℕ) : List ℤ := pyrange (chunkStart n P r) (chunkStop n P r + 1)

lemma chunkStart_zero (n P : ℕ) : chunkStart n P 0 = 0 := by
  simp only [chunkStart]
  split_ifs with h
  · simp
  · have hm : n % P = 0 := by omega
    simp [hm]

lemma chunkStart_nonneg (n P r : ℕ) : 0 ≤ chunkStart n P r := by
  simp only [chunkStart]
  split_ifs <;> positivity

lemma chunkStart_le_stop_succ (n P r : ℕ) : chunkStart n P r ≤ chunkStop n P r + 1 := by
  simp only [chunkStart, chunkStop]
  obtain ⟨q, hq⟩ : ∃ q, n / P = q := ⟨_, rfl⟩
  obtain ⟨m, hm⟩ : ∃ m, n % P = m := ⟨_, rfl⟩
  rw [hq, hm]
  split_ifs <;> omega

lemma chunkStart_succ (n P : ℕ) (hP : 1 ≤ P) (r : ℕ) :
    chunkStart n P (r + 1) = chunkStop n P r + 1 := by
  have hmP : n % P < P := Nat.mod_lt n hP
  simp only [chunkStart, chunkStop]
  obtain ⟨q, hq⟩ : ∃ q, n / P = q := ⟨_, rfl⟩
  obtain ⟨m, hm⟩ : ∃ m, n % P = m := ⟨_, rfl⟩
  rw [hq, hm] at *
  split_ifs with h1 h2 h2
  · push_cast; ring
  · exfalso; omega
  · have h3 : m = r + 1 := by omega
    subst h3
    push_cast; ring
  · push_cast; ring

lemma chunkStart_last (n P : ℕ) (hP : 1 ≤ P) : chunkStart n P P = n := by
  have hm : n % P < P := Nat.mod_lt n hP
  have hd : P * (n / P) + n % P = n := Nat.div_add_mod n P
  simp only [chunkStart, if_neg (by omega : ¬ P < n % P)]
  exact_mod_cast hd

lemma chunkStart_mono (n P : ℕ) (hP : 1 ≤ P) {r s : ℕ} (hrs : r ≤ s) :
    chunkStart n P r ≤ chunkStart n P s := by
  induction s with
  | zero =>
    have h0 : r = 0 := Nat.le_zero.mp hrs
    subst h0
    exact le_refl _
  | succ s ih =>
    rcases Nat.lt_or_ge r (s + 1) with h | h
    · calc chunkStart n P r ≤ chunkStart n P s := ih (by omega)
        _ ≤ chunkStop n P s + 1 := chunkStart_le_stop_succ n P s
        _ = chunkStart n P (s + 1) := (chunkStart_succ n P hP s).symm
    · have h0 : r = s + 1 := by omega
      subst h0
      exact le_refl _

lemma chunkJobs_flatMap (n P : ℕ) (hP : 1 ≤ P) :
    (List.range P).flatMap (fun r => chunkJobs n P r) = pyrange 0 (n : ℤ) := by
  have key : ∀ k : ℕ,
      (List.range k).flatMap (fun r => chunkJobs n P r) = pyrange 0 (chunkStart n P k) := by
    intro k
    induction k with
    | zero =>
      simp [chunkStart_zero, pyrange]
    | succ k ih =>
      rw [List.range_succ k, List.flatMap_append, ih]
      simp only [List.flatMap_cons, List.flatMap_nil, List.append_nil]
      rw [chunkJobs, ← chunkStart_succ n P hP k]
      exact pyrange_append (chunkStart_nonneg n P k)
        (by rw [chunkStart_succ n P hP k]; exact chunkStart_le_stop_succ n P k)
  rw [key P, chunkStart_last n P hP]

lemma chunkJobs_length (n P r : ℕ) :
    (chunkJobs n P r).length = if r < n % P then n / P + 1 else n / P := by
  simp only [chunkJobs, pyrange_length, chunkStart, chunkStop]
  obtain ⟨q, hq⟩ : ∃ q, n / P = q := ⟨_, rfl⟩
  obtain ⟨m, hm⟩ : ∃ m, n % P = m := ⟨_, rfl⟩
  rw [hq, hm]
  split_ifs <;> omega

/-! ## Per-rank results and the gather (`_fit_helper`, lines 256-296)

Each rank preallocates `local_models = [None] * my_chunk_len` and, for
`job_index` in `range(start, stop+1)`, stores the result of training
job `job_index` at offset `job_index - start` (line 269); the same
offset receives the job's prediction column (line 271) and distance
column (line 277).  Filling offsets `0..my_chunk_len-1` in job order is
exactly a `map` of the job-level computation over the rank's job list.
`comm.gather(..., root=0)` returns, on rank 0, the per-rank lists
ordered by rank; line 294 flattens them in that order, and lines
293/295 concatenate the per-rank matrices along the column axis in the
same rank order.  `f` abstracts the (deterministic, job-indexed)
result of one job: a trained `LocalModelR`, a prediction column, or a
distance column. -/

def rankLocalResults {α : Type} (f : ℤ → α) (n P r : ℕ) : List α :=
  (chunkJobs n P r).map f

def gatherConcat {α : Type} (f : ℤ → α) (n P : ℕ) : List α :=
  (List.range P).flatMap (fun r => rankLocalResults f n P r)

lemma gatherConcat_eq_map (f : ℤ → α) (n P : ℕ) (hP : 1 ≤ P) :
    gatherConcat f n P = (pyrange 0 (n : ℤ)).map f := by
  unfold gatherConcat rankLocalResults
  rw [← List.map_flatMap, chunkJobs_flatMap n P hP]

lemma pyrange_zero_get (n : ℕ) (j : ℕ) (hj : j < n) :
    (pyrange 0 (n : ℤ))[j]? = some (j : ℤ) := by
  simp only [pyrange]
  rw [List.getElem?_map, List.getElem?_range (by omega : j < ((n : ℤ) - 0).toNat)]
  simp

/-! ## Randomness accounting (`_fit_helper` lines 263-268, `_fitnoval` lines 369-377)

In `_fitnoval`, the per-replication subset draw
`self.rng_.choice(len_X, size=self.n_subsets_)` (line 372) runs only
under `rank == 0`; other ranks allocate zeros and receive the result by
`comm.Bcast` (lines 375-377).  In `_fit_helper`, however, the body of
the job loop executes on whichever rank owns the job, and when the
local-estimator capability exposes a `random_state` parameter it calls
`self.rng_.integers(...)` once per job (lines 263-266) on that rank's
own copy of the generator.  We count the draws each rank performs. -/

def fitnovalCoordinatorChoiceDraws (rank : ℕ) : ℕ :=
  if rank = 0 then 1 else 0

def fitHelperLocalSeedDraws (has_random_state : Bool) (n P r : ℕ) : ℕ :=
  if has_random_state then (chunkJobs n P r).length else 0

/-! ## Prediction (`predict`, lines 646-689)

```python
yhat = np.zeros(len_X0)
for i in range(self.n_replications_):
    ...
    yhat += ...
yhat = yhat/self.n_replications
```
The loop accumulates one per-replication contribution for each of the
`n_replications_` (realized) replications; the final division is by the
raw constructor attribute `self.n_replications` (the requested count).
`contrib i` abstracts the value the body of iteration `i` adds to one
entry of `yhat`. -/

def predictYhat (contrib : ℕ → ℚ) (n_replications_ : ℕ) : ℚ :=
  (List.range n_replications_).foldl (fun acc i => acc + contrib i) 0

def predictResult (contrib : ℕ → ℚ) (n_replications_ n_replications : ℕ) : ℚ :=
  predictYhat contrib n_replications_ / (n_replications : ℚ)

lemma predictYhat_eq_sum (contrib : ℕ → ℚ) (k : ℕ) :
    predictYhat contrib k = ∑ i in Finset.range k, contrib i := by
  induction k with
  | zero => simp [predictYhat]
  | succ k ih =>
    unfold predictYhat at *
    rw [List.range_succ k, List.foldl_append, ih, Finset.sum_range_succ]
    simp

/-! ## Distance normalization (lines 383-385, 449-452, 536-539, 626-629, 678-680)

```python
if (self.d_normalize_):
    dists = (dists.T/np.sum(dists, axis=1)).T
```
Each evaluation point's distance row is divided entrywise by that
row's sum, with no guard on the sum being zero.  A float division with
a zero divisor is modelled as `none`. -/

def qdiv (a b : ℚ) : Option ℚ := if b = 0 then none else some (a / b)

def optDivList (s : ℚ) : List ℚ → Option (List ℚ)
  | [] => some []
  | x :: xs =>
    match qdiv x s, optDivList s xs with
    | some y, some ys => some (y :: ys)
    | _, _ => none

/-- One row of the `d_normalize_` step: divide every entry of `row` by
`row.sum`. -/
def normalizeRow (row : List ℚ) : Option (List ℚ) := optDivList row.sum row

/-- The full `d_normalize_` step over the distance matrix (one inner
list per evaluation point). -/
def applyDNormalize (d_normalize_ : Bool) (dists : List (List ℚ)) :
    Option (List (List ℚ)) :=
  if d_normalize_ then
    (dists.foldr (fun row acc =>
      match normalizeRow row, acc with
      | some r, some rs => some (r :: rs)
      | _, _ => none) (some []))
  else some dists

lemma optDivList_of_ne_zero {s : ℚ} (hs : s ≠ 0) (l : List ℚ) :
    optDivList s l = some (l.map (fun x => x / s)) := by
  induction l with
  | nil => rfl
  | cons x xs ih => simp [optDivList, qdiv, hs, ih]

lemma optDivList_zero {l : List ℚ} (hl : l ≠ []) : optDivList 0 l = none := by
  cases l with
  | nil => exact absurd rfl hl
  | cons x xs => simp [optDivList, qdiv]

lemma sum_map_div (l : List ℚ) (s : ℚ) :
    (l.map (fun x => x / s)).sum = l.sum / s := by
  induction l with
  | nil => simp
  | cons x xs ih => simp [ih, div_add_div_same]

/-! ## Configuration (`__init__` / `_set_local_attributes`, lines 78-163)

An estimator capability is modelled as `Option Bool`: `none` is Python
`None`, `some b` a factory whose instances expose a `random_state`
parameter iff `b`.  A clustering capability records whether
`'n_clusters'` occurs in `get_params()` (and its value) and whether
`'random_state'` does.  `frac` and `val_size` are floats, modelled
over `ℚ`; `n_replications` may be any Python int, so `ℤ`. -/

structure ClusterCap where
  n_clusters : Option ℕ
  has_random_state : Bool
deriving DecidableEq

structure RawConfig where
  local_estimator : Option Bool
  global_estimator : Option Bool
  cluster_method : Option ClusterCap
  frac : Option ℚ
  n_neighbors : Option ℕ
  n_subsets : Option ℕ
  n_replications : ℤ
  d_normalize : Bool
  val_size : Option ℚ
deriving DecidableEq

/-- The derived (underscore) attributes set by `_set_local_attributes`
and later mutated by `_check_input`.  In the clustering path the source
turns `n_subsets_` into a per-replication list (line 205); that state
is modelled by `n_subsets_ = none` together with `cluster_method_ ≠
none`. -/
structure LocalAttrs where
  local_estimator_ : Option Bool
  global_estimator_ : Option Bool
  cluster_method_ : Option ClusterCap
  frac_ : Option ℚ
  n_neighbors_ : Option ℕ
  n_subsets_ : Option ℕ
  n_replications_ : ℤ
  d_normalize_ : Bool
  val_size_ : Option ℚ
deriving DecidableEq

def valSizeOutOfRange : Option ℚ → Bool
  | none => false
  | some v => decide (v ≤ 0) || decide (1 ≤ v)

def fracOutOfRange : Option ℚ → Bool
  | none => false
  | some f => decide (f ≤ 0) || decide (1 < f)

/-- Lines 108-122: copy the raw parameters to the underscore
attributes. -/
def raw_to_attrs (c : RawConfig) : LocalAttrs :=
  { local_estimator_ := c.local_estimator
    global_estimator_ := c.global_estimator
    cluster_method_ := c.cluster_method
    frac_ := c.frac
    n_neighbors_ := c.n_neighbors
    n_subsets_ := c.n_subsets
    n_replications_ := c.n_replications
    d_normalize_ := c.d_normalize
    val_size_ := c.val_size }

/-- Lines 138-163: the clustering adjustments (clustering wins over
`frac`; single requested cluster disables the global estimator, forces
`d_normalize_`, and without a validation split collapses the
replication count), or the default `frac = 0.05`. -/
def cluster_frac_adjust (a : LocalAttrs) : LocalAttrs :=
  match a.cluster_method_ with
  | some cap =>
    -- lines 139-142
    let a1 := if a.frac_ ≠ none then { a with frac_ := none } else a
    -- lines 144-159
    if cap.n_clusters = some 1 then
      let a2 := { a1 with global_estimator_ := none, d_normalize_ := true }
      if a2.val_size_ = none then { a2 with n_replications_ := 1 } else a2
    else a1
  | none =>
    -- lines 160-163
    if a.frac_ = none ∧ a.n_neighbors_ = none ∧ a.n_subsets_ = none then
      { a with frac_ := some (1 / 20) }
    else a

/-- `_set_local_attributes` (lines 101-163): copy raw parameters, run
the four fatal checks in source order, then adjust. -/
def set_local_attributes (c : RawConfig) : Except String LocalAttrs :=
  let a : LocalAttrs := raw_to_attrs c
  if a.local_estimator_ = none then
    .error "LESS does not work without a local estimator."
  else if valSizeOutOfRange a.val_size_ then
    .error "Parameter val_size should be in the interval (0, 1)."
  else if fracOutOfRange a.frac_ then
    .error "Parameter frac should be in the interval (0, 1]."
  else if a.n_replications_ < 1 then
    .error "The number of replications should greater than equal to one."
  else
    .ok (cluster_frac_adjust a)

/-- Python `int(a/b)` on nonnegative ints; `ZeroDivisionError` when
`b == 0`. -/
def pyIntDiv (a b : ℕ) : Except String ℕ :=
  if b = 0 then .error "ZeroDivisionError" else .ok (a / b)

/-- `_check_input` lines 172-175: derive `n_neighbors_`/`n_subsets_`
from `frac_`. -/
def check_input_frac (a : LocalAttrs) (len_X : ℕ) : Except String LocalAttrs :=
  match a.frac_ with
  | none => .ok a
  | some f =>
    match pyIntDiv len_X (⌈f * (len_X : ℚ)⌉).toNat with
    | .error e => .error e
    | .ok ns =>
      match pyIntDiv len_X ns with
      | .error e => .error e
      | .ok nn2 => .ok { a with n_neighbors_ := some nn2, n_subsets_ := some ns }

/-- `_check_input` lines 177-178: fill a missing `n_subsets_`. -/
def check_input_fill_subsets (a : LocalAttrs) (len_X : ℕ) : Except String LocalAttrs :=
  match a.n_subsets_ with
  | some _ => .ok a
  | none =>
    match a.n_neighbors_ with
    | none => .error "TypeError"
    | some nn =>
      match pyIntDiv len_X nn with
      | .error e => .error e
      | .ok ns => .ok { a with n_subsets_ := some ns }

/-- `_check_input` lines 180-181: fill a missing `n_neighbors_`. -/
def check_input_fill_neighbors (a : LocalAttrs) (len_X : ℕ) : Except String LocalAttrs :=
  match a.n_neighbors_ with
  | some _ => .ok a
  | none =>
    match a.n_subsets_ with
    | none => .error "TypeError"
    | some ns =>
      match pyIntDiv len_X ns with
      | .error e => .error e
      | .ok nn => .ok { a with n_neighbors_ := some nn }

/-- `_check_input` lines 183-199: the two degenerate collapses
(executed in sequence on the current values) and the single-subset
disabling of the global estimator. -/
def check_input_collapse (a : LocalAttrs) (len_X : ℕ) : Except String LocalAttrs :=
  match a.n_neighbors_, a.n_subsets_ with
  | some nn, some ns =>
    let p1 : ℕ × ℕ := if nn ≥ len_X then (len_X, 1) else (nn, ns)
    let p2 : ℕ × ℕ := if p1.2 ≥ len_X then (1, len_X) else p1
    let a1 := { a with n_neighbors_ := some p2.1, n_subsets_ := some p2.2 }
    if p2.2 = 1 then
      .ok { a1 with global_estimator_ := none, d_normalize_ := true }
    else .ok a1
  | _, _ => .error "TypeError"

/-- `_check_input` (lines 165-205). -/
def check_input (a : LocalAttrs) (len_X : ℕ) : Except String LocalAttrs :=
  match a.cluster_method_ with
  | some _ =>
    -- lines 200-205: clustering path clears frac_/n_neighbors_ and turns
    -- n_subsets_ into a per-replication list
    .ok { a with frac_ := none, n_neighbors_ := none, n_subsets_ := none }
  | none =>
    match check_input_frac a len_X with
    | .error e => .error e
    | .ok a1 =>
      match check_input_fill_subsets a1 len_X with
      | .error e => .error e
      | .ok a2 =>
        match check_input_fill_neighbors a2 len_X with
        | .error e => .error e
        | .ok a3 => check_input_collapse a3 len_X

/-! ## The clustering fit without validation (`_fitnovalc`, lines 468-553)

Two models of the state of this function right before line 521
(`self.n_subsets_.append(len(np.unique(cluster_fit_labels)))`).

1. The local name `cluster_fit_labels` is assigned before the loop only
   inside the `'random_state' not in get_params()` branch (lines
   478-496), and inside the loop only under `n_replications_ > 1`
   (lines 499-518).  With a seeded clusterer and `n_replications_ ≤ 1`
   neither branch runs and line 521 raises `NameError`.

2. In the deterministic branch itself, rank 0 sets (lines 487-488)
   `n_clusters = cluster_fit_labels.shape[0]` and
   `n_features = cluster_fit_labels.shape[1]`, but the `labels_` of a
   clusterer fitted on `n_samples` points is one-dimensional, so its
   shape tuple is `(n_samples,)` and the second access is an
   `IndexError`. -/

def fitnovalc_labels_assigned (cap_has_random_state : Bool) (n_replications_ : ℤ) : Bool :=
  (!cap_has_random_state) || decide (1 < n_replications_)

/-- Shape tuple of `cluster_fit.labels_` over `n_samples` samples. -/
def labels_shape (n_samples : ℕ) : List ℕ := [n_samples]

/-- Line 487: `n_clusters = cluster_fit_labels.shape[0]`. -/
def fitnovalc_n_clusters (n_samples : ℕ) : Option ℕ := (labels_shape n_samples)[0]?

/-- Line 488: `n_features = cluster_fit_labels.shape[1]`. -/
def fitnovalc_n_features (n_samples : ℕ) : Option ℕ := (labels_shape n_samples)[1]?

/-! ## Per-rank fitted state (`fit` line 236, `_fitnoval` lines 368-397)

Every rank executes `self.replications_ = []` (line 368); inside the
replication loop the `ReplicationR` is built and appended only under
`rank == 0` (lines 382-397); back in `fit`, every rank executes
`self._isfitted = True` (line 236).  `predict` (lines 651-660) passes
`check_is_fitted` (the `_isfitted` attribute exists) and then reads
`self.replications_[i]` for `i in range(self.n_replications_)`. -/

def fitnoval_replications (rank n_replications_ : ℕ) : List ℕ :=
  (List.range n_replications_).foldl
    (fun reps i => if rank = 0 then reps ++ [i] else reps) []

structure RankFitState where
  replications_ : List ℕ
  isfitted : Bool
deriving DecidableEq

def fit_state_on_rank (rank n_replications_ : ℕ) : RankFitState :=
  { replications_ := fitnoval_replications rank n_replications_
    isfitted := true }

/-- The sequence of `self.replications_[i]` reads performed by
`predict`; `none` models the `IndexError` raised by the first
out-of-range read. -/
def predict_replication_reads (reps : List ℕ) (n_replications_ : ℕ) :
    Option (List ℕ) :=
  (List.range n_replications_).mapM (fun i => reps[i]?)

lemma foldl_skip {α β : Type} (b : α) (l : List β) :
    l.foldl (fun a _ => a) b = b := by
  induction l generalizing b with
  | nil => rfl
  | cons x xs ih => exact ih b

lemma fitnoval_replications_nonzero_rank {rank : ℕ} (h : rank ≠ 0)
    (k : ℕ) : fitnoval_replications rank k = [] := by
  unfold fitnoval_replications
  have hf : (fun (reps : List ℕ) (i : ℕ) => if rank = 0 then reps ++ [i] else reps)
      = fun reps _ => reps := by
    funext reps i
    rw [if_neg h]
  rw [hf, foldl_skip]

lemma fitnoval_replications_rank_zero (k : ℕ) :
    fitnoval_replications 0 k = List.range k := by
  unfold fitnoval_replications
  induction k with
  | zero => simp
  | succ k ih =>
    rw [List.range_succ k, List.foldl_append, ih]
    simp [List.range_succ k]

lemma predict_reads_empty {k : ℕ} (hk : 1 ≤ k) :
    predict_replication_reads [] k = none := by
  unfold predict_replication_reads
  cases k with
  | zero => omega
  | succ m =>
    rw [List.range_succ_eq_map m, List.mapM_cons]
    simp

lemma pyrange_eq_nil {a b : ℤ} (h : b ≤ a) : pyrange a b = [] := by
  simp [pyrange, Int.toNat_of_nonpos (by omega : b - a ≤ 0)]

/-! # Claims -/

/-- Claim C2 — For every job count `n_subsets ≥ 0` and worker count
`P ≥ 1`, the per-rank job ranges computed by the work distributor of
`_fit_helper` (lines 241-247) have length `base + 1` for ranks
`r < n % P` and `base` otherwise (`base = n / P`), are increasing with
rank (hence contiguous and pairwise disjoint), and concatenate in rank
order to exactly `[0, n_subsets)`; when `n_subsets < P` every rank
`r ≥ n_subsets` receives the empty range. -/
theorem work_distribution_correct (n P : ℕ) (hP : 1 ≤ P) :
    ((List.range P).flatMap (fun r => chunkJobs n P r) = pyrange 0 (n : ℤ))
    ∧ (∀ r : ℕ, (chunkJobs n P r).length = if r < n % P then n / P + 1 else n / P)
    ∧ (∀ r s : ℕ, r < s → ∀ x ∈ chunkJobs n P r, ∀ y ∈ chunkJobs n P s, x < y)
    ∧ (∀ r s : ℕ, r ≠ s → ∀ x, x ∈ chunkJobs n P r → x ∉ chunkJobs n P s)
    ∧ (n < P → ∀ r : ℕ, n ≤ r → chunkJobs n P r = []) := by
  have horder : ∀ r s : ℕ, r < s →
      ∀ x ∈ chunkJobs n P r, ∀ y ∈ chunkJobs n P s, x < y := by
    intro r s hrs x hx y hy
    rw [chunkJobs, mem_pyrange] at hx hy
    calc x < chunkStop n P r + 1 := hx.2
      _ = chunkStart n P (r + 1) := (chunkStart_succ n P hP r).symm
      _ ≤ chunkStart n P s := chunkStart_mono n P hP hrs
      _ ≤ y := hy.1
  refine ⟨chunkJobs_flatMap n P hP, chunkJobs_length n P, horder, ?_, ?_⟩
  · intro r s hrs x hxr hxs
    rcases Nat.lt_or_ge r s with h | h
    · exact absurd (horder r s h x hxr x hxs) (lt_irrefl x)
    · have h2 : s < r := by omega
      exact absurd (horder s r h2 x hxs x hxr) (lt_irrefl x)
  · intro hnP r hnr
    have hq : n / P = 0 := Nat.div_eq_of_lt hnP
    have hm : n % P = n := Nat.mod_eq_of_lt hnP
    have hr : ¬ r < n % P := by omega
    apply pyrange_eq_nil
    simp only [chunkStop, chunkStart, if_neg hr, hq, hm]
    omega

/-- Closed witness for `work_distribution_correct` at `n = 7`, `P = 3`. -/
theorem work_distribution_correct_witness :
    (1 : ℕ) ≤ 3 ∧
      (List.range 3).flatMap (fun r => chunkJobs 7 3 r) = pyrange 0 (7 : ℤ) :=
  ⟨by decide, (work_distribution_correct 7 3 (by decide)).1⟩

/-- Claim C3 — For every replication, the per-rank result lists built
by `_fit_helper`/`_fit_helperc` (one entry per job of the rank's
chunk, stored at offset `job_index - start`) and gathered to rank 0 in
rank order (lines 289-296, 349-356) concatenate so that position `j`
holds the result of subset/job index `j`, and the concatenated length
equals the replication's subset count `n` (`n_subsets_`, or
`n_subsets_[i]` under clustering).  `f` abstracts the job-level
result: a `LocalModelR`, a prediction column, or a distance column. -/
theorem gather_preserves_job_order {α : Type} (f : ℤ → α) (n P : ℕ) (hP : 1 ≤ P) :
    gatherConcat f n P = (pyrange 0 (n : ℤ)).map f
    ∧ (gatherConcat f n P).length = n
    ∧ (∀ j : ℕ, j < n → (gatherConcat f n P)[j]? = some (f (j : ℤ))) := by
  have hmain := gatherConcat_eq_map f n P hP
  refine ⟨hmain, ?_, ?_⟩
  · rw [hmain, List.length_map, pyrange_length]
    omega
  · intro j hj
    rw [hmain, List.getElem?_map, pyrange_zero_get n j hj]
    rfl

/-- Closed witness for `gather_preserves_job_order` at `n = 3`,
`P = 8` (five ranks receive empty chunks; three ordered results are
still recovered). -/
theorem gather_preserves_job_order_witness :
    (1 : ℕ) ≤ 8 ∧ (gatherConcat (fun j : ℤ => j * j) 3 8).length = 3 :=
  ⟨by decide, (gather_preserves_job_order (fun j : ℤ => j * j) 3 8 (by decide)).2.1⟩

/-- Claim C4, counterexample — the claim states that randomness is
never drawn by non-coordinator processes.  But when the local
estimator exposes a `random_state` parameter, `_fit_helper` calls
`self.rng_.integers(...)` once per job on whichever rank owns the job
(lines 263-266): with `n_subsets_ = 2` and `P = 2`, rank 1 (not the
coordinator) performs one draw from its own generator copy. -/
theorem noncoordinator_draw_cex :
    fitHelperLocalSeedDraws true 2 2 1 = 1 ∧ (1 : ℕ) ≠ 0 := by decide

/-- Claim C4, amended — the per-replication partition draw
(`rng_.choice`, lines 370-376) happens only on the coordinator; when
the local estimator exposes no `random_state` parameter,
non-coordinator ranks draw no randomness at all and the gathered
per-replication results do not depend on the worker count; when it
does expose one, each rank draws exactly one seed per job of its own
chunk from its own (identically seeded) generator copy. -/
theorem randomness_draw_accounting {α : Type} (f : ℤ → α) (n P₁ P₂ : ℕ)
    (h1 : 1 ≤ P₁) (h2 : 1 ≤ P₂) :
    (∀ r : ℕ, r ≠ 0 → fitnovalCoordinatorChoiceDraws r = 0)
    ∧ (∀ m P r : ℕ, fitHelperLocalSeedDraws false m P r = 0)
    ∧ (∀ r : ℕ, fitHelperLocalSeedDraws true n P₁ r = (chunkJobs n P₁ r).length)
    ∧ gatherConcat f n P₁ = gatherConcat f n P₂ := by
  refine ⟨?_, ?_, ?_, ?_⟩
  · intro r hr
    simp [fitnovalCoordinatorChoiceDraws, hr]
  · intro m P r
    simp [fitHelperLocalSeedDraws]
  · intro r
    simp [fitHelperLocalSeedDraws]
  · rw [gatherConcat_eq_map f n P₁ h1, gatherConcat_eq_map f n P₂ h2]

/-- Closed witness for `randomness_draw_accounting` at `n = 5`,
`P₁ = 2`, `P₂ = 3`. -/
theorem randomness_draw_accounting_witness :
    gatherConcat (fun j : ℤ => j) 5 2 = gatherConcat (fun j : ℤ => j) 5 3 :=
  (randomness_draw_accounting (fun j : ℤ => j) 5 2 3 (by decide) (by decide)).2.2.2

/-- Claim C1, counterexample — the claim states that `predict` divides
the accumulated sum by the realized `n_replications_`, so that the
result is the mean over the realized replications.  The code divides
by the raw requested `self.n_replications` (line 687): with one
realized replication contributing 1 and a requested count of 2, the
result is 1/2, not the realized mean 1. -/
theorem predict_divisor_cex :
    predictResult (fun _ => (1 : ℚ)) 1 2
      ≠ (∑ i in Finset.range 1, (1 : ℚ)) / (1 : ℚ) := by
  norm_num [predictResult, predictYhat, List.range_succ]

/-- Claim C1, amended — `predict` accumulates one contribution per
replication actually produced (the loop at line 657 runs over the
realized `n_replications_`) but divides the accumulated sum by the
originally requested `self.n_replications` (line 687); the result is
the mean over the realized replications exactly when the realized and
requested counts coincide. -/
theorem predict_sum_realized_div_requested
    (contrib : ℕ → ℚ) (n_replications_ n_replications : ℕ) :
    predictResult contrib n_replications_ n_replications
      = (∑ i in Finset.range n_replications_, contrib i) / (n_replications : ℚ) := by
  unfold predictResult
  rw [predictYhat_eq_sum]

/-- Closed witness for `predict_sum_realized_div_requested` at a
concrete contribution function and counts. -/
theorem predict_sum_realized_div_requested_witness :
    predictResult (fun _ => (2 : ℚ)) 3 3
      = (∑ i in Finset.range 3, (2 : ℚ)) / ((3 : ℕ) : ℚ) :=
  predict_sum_realized_div_requested (fun _ => (2 : ℚ)) 3 3

/-- Claim C6 — with `d_normalize` enabled, each evaluation point's
distance row is divided entrywise by the row's sum (lines 384-385 and
678-680): a row whose sum is nonzero sums to exactly 1 afterwards,
while a row whose sum is zero hits an unguarded division by zero. -/
theorem d_normalize_row_sums (row : List ℚ) :
    (row.sum ≠ 0 → normalizeRow row = some (row.map (fun x => x / row.sum))
        ∧ (row.map (fun x => x / row.sum)).sum = 1)
    ∧ (row.sum = 0 → row ≠ [] → normalizeRow row = none) := by
  constructor
  · intro hs
    refine ⟨optDivList_of_ne_zero hs row, ?_⟩
    rw [sum_map_div, div_self hs]
  · intro hs hne
    unfold normalizeRow
    rw [hs]
    exact optDivList_zero hne

/-- Closed witness for `d_normalize_row_sums` on the rows `[1, 3]`
(nonzero sum) and `[0, 0]` (zero sum). -/
theorem d_normalize_row_sums_witness :
    (([(1 : ℚ), 3].sum ≠ 0) ∧ normalizeRow [(1 : ℚ), 3] = some [1 / 4, 3 / 4])
    ∧ (([(0 : ℚ), 0].sum = 0) ∧ [(0 : ℚ), 0] ≠ ([] : List ℚ)
        ∧ normalizeRow [(0 : ℚ), 0] = none) := by
  have hsum : [(1 : ℚ), 3].sum ≠ 0 := by norm_num
  have h1 := (d_normalize_row_sums [(1 : ℚ), 3]).1 hsum
  have hz : [(0 : ℚ), 0].sum = 0 := by norm_num
  have h2 := (d_normalize_row_sums [(0 : ℚ), 0]).2 hz (by simp)
  refine ⟨⟨hsum, h1.1.trans ?_⟩, hz, by simp, h2⟩
  norm_num

/-- Claim C7 — the deterministic-clusterer branch of `_fitnovalc`
(lines 478-496) cannot complete: on rank 0 it reads `n_clusters` and
`n_features` from `cluster_fit_labels.shape` (lines 487-488), but the
labels array of a clusterer fitted on `n_samples` points is
one-dimensional, so `shape[1]` is an `IndexError` (and `shape[0]` is
the sample count, not a cluster count); the claimed broadcast-and-reuse
single replication is never produced. -/
theorem deterministic_clustering_shape_indexerror :
    fitnovalc_n_features 100 = none ∧ fitnovalc_n_clusters 100 = some 100 := by
  decide

/-- A regressor configured for exactly one cluster (a seeded
KMeans-style clusterer with `n_clusters = 1`), no validation split,
default replication count 20, and `d_normalize = False`. -/
def singleClusterConfig : RawConfig :=
  { local_estimator := some false
    global_estimator := some false
    cluster_method := some { n_clusters := some 1, has_random_state := true }
    frac := none
    n_neighbors := none
    n_subsets := none
    n_replications := 20
    d_normalize := false
    val_size := none }

/-- Claim C5 — construction with a single requested cluster and no
`val_size` does disable the global estimator, force `d_normalize_`,
and collapse `n_replications_` to 1 (lines 144-159); but the claimed
fitted ensemble with one global-model-free replication is never
produced: in `_fitnovalc` the only branch that assigns
`cluster_fit_labels` for a seeded clusterer requires
`n_replications_ > 1` (line 499), so with the collapsed count the use
at line 521 raises `NameError` and `fit` aborts. -/
theorem single_cluster_collapse_then_fit_crashes :
    set_local_attributes singleClusterConfig = .ok
      { local_estimator_ := some false
        global_estimator_ := none
        cluster_method_ := some { n_clusters := some 1, has_random_state := true }
        frac_ := none
        n_neighbors_ := none
        n_subsets_ := none
        n_replications_ := 1
        d_normalize_ := true
        val_size_ := none }
    ∧ fitnovalc_labels_assigned true 1 = false := by
  constructor
  · rfl
  · rfl

lemma valSizeOutOfRange_iff (o : Option ℚ) :
    valSizeOutOfRange o = true ↔ ∃ v, o = some v ∧ (v ≤ 0 ∨ 1 ≤ v) := by
  cases o <;> simp [valSizeOutOfRange]

lemma fracOutOfRange_iff (o : Option ℚ) :
    fracOutOfRange o = true ↔ ∃ f, o = some f ∧ (f ≤ 0 ∨ 1 < f) := by
  cases o <;> simp [fracOutOfRange]

/-- Claim C8 — construction (`_set_local_attributes`, lines 124-136)
raises a configuration error if and only if the local-estimator
capability is `None`, or `val_size` is supplied outside the open
interval (0,1), or `frac` is supplied outside (0,1], or
`n_replications < 1`; in every other case it succeeds. -/
theorem construction_error_iff (c : RawConfig) :
    (∃ e, set_local_attributes c = .error e) ↔
      (c.local_estimator = none
        ∨ (∃ v, c.val_size = some v ∧ (v ≤ 0 ∨ 1 ≤ v))
        ∨ (∃ f, c.frac = some f ∧ (f ≤ 0 ∨ 1 < f))
        ∨ c.n_replications < 1) := by
  simp only [set_local_attributes]
  split_ifs with h1 h2 h3 h4
  · exact iff_of_true ⟨_, rfl⟩ (Or.inl h1)
  · exact iff_of_true ⟨_, rfl⟩
      (Or.inr (Or.inl ((valSizeOutOfRange_iff c.val_size).mp h2)))
  · exact iff_of_true ⟨_, rfl⟩
      (Or.inr (Or.inr (Or.inl ((fracOutOfRange_iff c.frac).mp h3))))
  · exact iff_of_true ⟨_, rfl⟩ (Or.inr (Or.inr (Or.inr h4)))
  · constructor
    · rintro ⟨e, he⟩
      cases he
    · rintro (h | h | h | h)
      · exact absurd h h1
      · exact absurd ((valSizeOutOfRange_iff c.val_size).mpr h) h2
      · exact absurd ((fracOutOfRange_iff c.frac).mpr h) h3
      · exact absurd h h4

/-- A configuration with `n_replications = 0`, used to witness
`construction_error_iff`. -/
def zeroRepConfig : RawConfig :=
  { local_estimator := some false
    global_estimator := some false
    cluster_method := none
    frac := none
    n_neighbors := some 1
    n_subsets := some 1
    n_replications := 0
    d_normalize := true
    val_size := none }

/-- Closed witness for `construction_error_iff` at a concrete
configuration. -/
theorem construction_error_iff_witness :
    (∃ e, set_local_attributes zeroRepConfig = .error e) ↔
      (zeroRepConfig.local_estimator = none
        ∨ (∃ v, zeroRepConfig.val_size = some v ∧ (v ≤ 0 ∨ 1 ≤ v))
        ∨ (∃ f, zeroRepConfig.frac = some f ∧ (f ≤ 0 ∨ 1 < f))
        ∨ zeroRepConfig.n_replications < 1) :=
  construction_error_iff zeroRepConfig

/-- Claim C9 — after `fit`, every non-coordinator rank is left with
`replications_ == []` (line 368; appends happen only under
`rank == 0`, lines 382-397) while `_isfitted` is `True` on all ranks
(line 236); `predict` on such a rank therefore passes the fitted-ness
check but its very first read `self.replications_[i]` is out of range
for any realized replication count ≥ 1, while rank 0 holds all
realized replications. -/
theorem noncoordinator_predict_index_error (rank k : ℕ)
    (hrank : rank ≠ 0) (hk : 1 ≤ k) :
    (fit_state_on_rank rank k).replications_ = []
    ∧ (fit_state_on_rank rank k).isfitted = true
    ∧ predict_replication_reads (fit_state_on_rank rank k).replications_ k = none
    ∧ (fit_state_on_rank 0 k).replications_.length = k := by
  have hempty : (fit_state_on_rank rank k).replications_ = [] :=
    fitnoval_replications_nonzero_rank hrank k
  refine ⟨hempty, rfl, ?_, ?_⟩
  · rw [hempty]
    exact predict_reads_empty hk
  · show (fitnoval_replications 0 k).length = k
    rw [fitnoval_replications_rank_zero]
    exact List.length_range k

/-- Closed witness for `noncoordinator_predict_index_error` at
`rank = 1`, realized count 3. -/
theorem noncoordinator_predict_index_error_witness :
    (fit_state_on_rank 1 3).replications_ = []
    ∧ (fit_state_on_rank 1 3).isfitted = true
    ∧ predict_replication_reads (fit_state_on_rank 1 3).replications_ 3 = none
    ∧ (fit_state_on_rank 0 3).replications_.length = 3 :=
  noncoordinator_predict_index_error 1 3 (by decide) (by decide)

lemma cluster_frac_adjust_global (a : LocalAttrs) :
    ((cluster_frac_adjust a).global_estimator_ = a.global_estimator_
      ∧ (cluster_frac_adjust a).d_normalize_ = a.d_normalize_)
    ∨ ((cluster_frac_adjust a).global_estimator_ = none
      ∧ (cluster_frac_adjust a).d_normalize_ = true) := by
  unfold cluster_frac_adjust
  rcases hcm : a.cluster_method_ with _ | cap <;> simp only []
  · split_ifs <;> exact Or.inl ⟨rfl, rfl⟩
  · split_ifs <;> first
      | exact Or.inl ⟨rfl, rfl⟩
      | exact Or.inr ⟨rfl, rfl⟩

lemma set_local_attributes_eq {c : RawConfig} {a : LocalAttrs}
    (h : set_local_attributes c = .ok a) :
    a = cluster_frac_adjust (raw_to_attrs c) := by
  simp only [set_local_attributes] at h
  split_ifs at h
  rw [Except.ok.injEq] at h
  exact h.symm

lemma set_local_attributes_global {c : RawConfig} {a : LocalAttrs}
    (h : set_local_attributes c = .ok a) :
    (a.global_estimator_ = c.global_estimator ∧ a.d_normalize_ = c.d_normalize)
    ∨ (a.global_estimator_ = none ∧ a.d_normalize_ = true) := by
  rw [set_local_attributes_eq h]
  exact cluster_frac_adjust_global (raw_to_attrs c)

lemma check_input_frac_preserves {a b : LocalAttrs} {len_X : ℕ}
    (h : check_input_frac a len_X = .ok b) :
    b.global_estimator_ = a.global_estimator_ ∧ b.d_normalize_ = a.d_normalize_ := by
  unfold check_input_frac at h
  split at h
  · cases h
    exact ⟨rfl, rfl⟩
  · split at h
    · cases h
    · split at h
      · cases h
      · cases h
        exact ⟨rfl, rfl⟩

lemma check_input_fill_subsets_preserves {a b : LocalAttrs} {len_X : ℕ}
    (h : check_input_fill_subsets a len_X = .ok b) :
    b.global_estimator_ = a.global_estimator_ ∧ b.d_normalize_ = a.d_normalize_ := by
  unfold check_input_fill_subsets at h
  split at h
  · cases h
    exact ⟨rfl, rfl⟩
  · split at h
    · cases h
    · split at h
      · cases h
      · cases h
        exact ⟨rfl, rfl⟩

lemma check_input_fill_neighbors_preserves {a b : LocalAttrs} {len_X : ℕ}
    (h : check_input_fill_neighbors a len_X = .ok b) :
    b.global_estimator_ = a.global_estimator_ ∧ b.d_normalize_ = a.d_normalize_ := by
  unfold check_input_fill_neighbors at h
  split at h
  · cases h
    exact ⟨rfl, rfl⟩
  · split at h
    · cases h
    · split at h
      · cases h
      · cases h
        exact ⟨rfl, rfl⟩

lemma check_input_collapse_cases {a b : LocalAttrs} {len_X : ℕ}
    (h : check_input_collapse a len_X = .ok b) :
    (b.global_estimator_ = a.global_estimator_ ∧ b.d_normalize_ = a.d_normalize_)
    ∨ (b.global_estimator_ = none ∧ b.d_normalize_ = true) := by
  simp only [check_input_collapse] at h
  split at h
  · split_ifs at h <;> cases h <;> first
      | exact Or.inl ⟨rfl, rfl⟩
      | exact Or.inr ⟨rfl, rfl⟩
  · cases h

lemma check_input_cases {a b : LocalAttrs} {len_X : ℕ}
    (h : check_input a len_X = .ok b) :
    (b.global_estimator_ = a.global_estimator_ ∧ b.d_normalize_ = a.d_normalize_)
    ∨ (b.global_estimator_ = none ∧ b.d_normalize_ = true) := by
  unfold check_input at h
  split at h
  · cases h
    exact Or.inl ⟨rfl, rfl⟩
  · split at h
    · cases h
    · rename_i a1 heq1
      split at h
      · cases h
      · rename_i a2 heq2
        split at h
        · cases h
        · rename_i a3 heq3
          have p1 := check_input_frac_preserves heq1
          have p2 := check_input_fill_subsets_preserves heq2
          have p3 := check_input_fill_neighbors_preserves heq3
          rcases check_input_collapse_cases h with ⟨hg, hd⟩ | hr
          · exact Or.inl ⟨hg.trans (p3.1.trans (p2.1.trans p1.1)),
              hd.trans (p3.2.trans (p2.2.trans p1.2))⟩
          · exact Or.inr hr

/-- Claim C10 — in every reachable validated configuration in which
the global estimator was disabled by construction (single requested
cluster, lines 149-152) or by input checking (single derived subset,
lines 195-199), the `d_normalize_` flag ends up `True`: both disabling
sites set it together with `global_estimator_ = None`, and no later
step of `_check_input` ever clears it — even when the constructor was
given `d_normalize = False`. -/
theorem global_disabled_forces_d_normalize (c : RawConfig) (a b : LocalAttrs)
    (len_X : ℕ)
    (h1 : set_local_attributes c = .ok a)
    (h2 : check_input a len_X = .ok b)
    (h3 : c.global_estimator ≠ none)
    (h4 : b.global_estimator_ = none) :
    b.d_normalize_ = true := by
  rcases set_local_attributes_global h1 with ⟨hg, hd⟩ | ⟨hg, hd⟩
  · rcases check_input_cases h2 with ⟨hg2, hd2⟩ | ⟨hg2, hd2⟩
    · exact absurd (hg ▸ hg2 ▸ h4) h3
    · exact hd2
  · rcases check_input_cases h2 with ⟨hg2, hd2⟩ | ⟨hg2, hd2⟩
    · rw [hd2, hd]
    · exact hd2

/-- A validated configuration whose derived subset count is 1, with
`d_normalize = False` requested at construction. -/
def subsetCollapseConfig : RawConfig :=
  { local_estimator := some false
    global_estimator := some false
    cluster_method := none
    frac := none
    n_neighbors := some 1
    n_subsets := some 1
    n_replications := 20
    d_normalize := false
    val_size := none }

def subsetCollapseAttrs : LocalAttrs :=
  { local_estimator_ := some false
    global_estimator_ := some false
    cluster_method_ := none
    frac_ := none
    n_neighbors_ := some 1
    n_subsets_ := some 1
    n_replications_ := 20
    d_normalize_ := false
    val_size_ := none }

def subsetCollapseChecked : LocalAttrs :=
  { subsetCollapseAttrs with global_estimator_ := none, d_normalize_ := true }

/-- Closed witness for `global_disabled_forces_d_normalize`: a
1-subset configuration constructed with `d_normalize = False` ends up
with the flag forced on. -/
theorem global_disabled_forces_d_normalize_witness :
    subsetCollapseChecked.d_normalize_ = true :=
  global_disabled_forces_d_normalize subsetCollapseConfig subsetCollapseAttrs
    subsetCollapseChecked 5 rfl rfl (by decide) rfl

end LessMPI
